import Mathlib

/-!
Verification of the MuseAid repository against its specification.

This file shallowly embeds the parts of the source that the claims refer to:

* the data model (`models.py` of the server and of the Composition App);
* the server-side `SequenceEditor` (`server/src/museaid_server/editor.py`);
* the Composition App `SequenceEditor` (`Composition_App/src/music_app/commands.py`);
* the server routes `POST /speech`, `POST /gestures`, `PUT /sequence` together
  with the gesture-to-command table (`routes/speech.py`, `routes/gestures.py`,
  `routes/sequence.py`, `services/gesture_map.py`, `state.py`);
* the gesture detectors for pinch, peace sign and the per-class cooldown gate
  (`hand-gesture-app/src/gesture_detector.py`, `config.py`, `finger_state.py`).

Python floats are modelled as exact rationals (every arithmetic step the
claims depend on is exact dyadic arithmetic in the source), stateful methods
are modelled as state-passing functions, and exceptions that propagate before
any mutation are modelled as returning the state unchanged.
-/

/-- Ordered list of all supported pitches, from `models.py` (`PITCH_ORDER`). -/
def PITCH_ORDER : List String :=
  ["C4", "C#4", "D4", "D#4", "E4", "F4", "F#4", "G4", "G#4", "A4", "A#4", "B4",
   "C5", "C#5", "D5", "D#5", "E5", "F5", "F#5", "G5", "G#5", "A5", "A#5", "B5"]

/-- A single musical note or rest, from the `Note` dataclass of `models.py`. -/
structure Note where
  pitch : String
  duration : ℚ
  beat : ℚ
  note_type : String
  instrument : Int
deriving DecidableEq, Repr

/-- An ordered collection of notes with tempo, time signature, and key, from
the `Sequence` dataclass of `models.py`. -/
structure Sequence where
  name : String
  bpm : Int
  time_sig_num : Int
  time_sig_den : Int
  key : String
  notes : List Note
deriving DecidableEq, Repr

/-- The canonical-type table of `commands.py` (`_note_type_for_duration`):
duration to note-type name, with a 1e-6 tolerance. -/
def noteTypeForDuration (duration : ℚ) : Option String :=
  if |duration - 4| < 1/1000000 then some "whole"
  else if |duration - 2| < 1/1000000 then some "half"
  else if |duration - 1| < 1/1000000 then some "quarter"
  else if |duration - 1/2| < 1/1000000 then some "eighth"
  else if |duration - 1/4| < 1/1000000 then some "sixteenth"
  else none

/-- The state wrapped by both `SequenceEditor` variants: the sequence being
edited plus the integer cursor (`self.sequence`, `self._cursor`). -/
structure EditorState where
  sequence : Sequence
  cursor : Nat
deriving DecidableEq, Repr

/-- The clamping cursor setter shared verbatim by both editors. -/
def setCursor (st : EditorState) (value : Int) : EditorState :=
  if st.sequence.notes = [] then { st with cursor := 0 }
  else { st with cursor := (max 0 (min value ((st.sequence.notes.length : Int) - 1))).toNat }

/-- The `current_note` property: the note at the cursor, when in range. -/
def currentNote (st : EditorState) : Option Note :=
  st.sequence.notes[st.cursor]?

/-- Replace the note at the cursor (models the in-place mutation of the
current note object). -/
def setNoteAt (st : EditorState) (n : Note) : EditorState :=
  { st with sequence := { st.sequence with notes := st.sequence.notes.set st.cursor n } }

namespace ServerEditor

/-! Embedding of `server/src/museaid_server/editor.py` (`SequenceEditor`). -/

def move_left (st : EditorState) : EditorState :=
  setCursor st ((st.cursor : Int) - 1)

def move_right (st : EditorState) : EditorState :=
  setCursor st ((st.cursor : Int) + 1)

def pitch_up (st : EditorState) : EditorState :=
  match currentNote st with
  | none => st
  | some note =>
    if note.pitch = "REST" then st
    else
      match PITCH_ORDER.indexOf? note.pitch with
      | none => st  -- source: `PITCH_ORDER.index` raises ValueError before any mutation
      | some idx =>
        if idx < PITCH_ORDER.length - 1 then
          setNoteAt st { note with pitch := PITCH_ORDER.getD (idx + 1) "C4" }
        else st

def pitch_down (st : EditorState) : EditorState :=
  match currentNote st with
  | none => st
  | some note =>
    if note.pitch = "REST" then st
    else
      match PITCH_ORDER.indexOf? note.pitch with
      | none => st  -- source: `PITCH_ORDER.index` raises ValueError before any mutation
      | some idx =>
        if 0 < idx then
          setNoteAt st { note with pitch := PITCH_ORDER.getD (idx - 1) "C4" }
        else st

def delete_note (st : EditorState) : EditorState :=
  if st.sequence.notes = [] then st
  else
    let notes2 := st.sequence.notes.eraseIdx st.cursor
    let cursor2 :=
      if notes2.length ≤ st.cursor ∧ notes2 ≠ [] then notes2.length - 1 else st.cursor
    { sequence := { st.sequence with notes := notes2 }, cursor := cursor2 }

def add_note (st : EditorState) : EditorState :=
  if st.sequence.notes = [] then
    let newNote : Note :=
      { pitch := "C4", duration := 1, beat := 0, note_type := "quarter", instrument := 0 }
    { sequence := { st.sequence with notes := [newNote] }, cursor := 0 }
  else
    match st.sequence.notes[st.cursor]? with
    | none => st  -- source: list indexing raises IndexError before any mutation
    | some cur =>
      let newNote : Note :=
        { pitch := "C4", duration := 1, beat := cur.beat + cur.duration,
          note_type := "quarter", instrument := 0 }
      { sequence := { st.sequence with notes := st.sequence.notes.insertIdx (st.cursor + 1) newNote },
        cursor := st.cursor + 1 }

def toggle_instrument (st : EditorState) : EditorState :=
  match currentNote st with
  | none => st
  | some note =>
    setNoteAt st { note with instrument := if note.instrument = 0 then 1 else 0 }

/-- The command dispatch of the server editor (`execute`): `some` when the
command string is known, `none` otherwise (Python returns a Bool). -/
def execute (command : String) (st : EditorState) : Option EditorState :=
  if command = "move_left" then some (move_left st)
  else if command = "move_right" then some (move_right st)
  else if command = "pitch_up" then some (pitch_up st)
  else if command = "pitch_down" then some (pitch_down st)
  else if command = "delete_note" then some (delete_note st)
  else if command = "add_note" then some (add_note st)
  else if command = "toggle_instrument" then some (toggle_instrument st)
  else none

end ServerEditor

namespace MusicApp

/-! Embedding of `Composition_App/src/music_app/commands.py` (`SequenceEditor`).
Qt signal emissions carry no state and are omitted. -/

def move_left (st : EditorState) : EditorState :=
  setCursor st ((st.cursor : Int) - 1)

def move_right (st : EditorState) : EditorState :=
  setCursor st ((st.cursor : Int) + 1)

/-- Predicate used by the rest-seed search loops: a non-rest note whose pitch
is a member of `PITCH_ORDER`. -/
def seedCandidate (n : Note) : Bool :=
  !(n.pitch == "REST") && PITCH_ORDER.contains n.pitch

/-- The `_rest_seed_pitch_index` helper: nearest prior candidate, else nearest
following candidate, else index 0 (C4). -/
def restSeedPitchIndex (st : EditorState) : Nat :=
  if st.sequence.notes = [] then 0
  else
    match (st.sequence.notes.take st.cursor).reverse.find? seedCandidate with
    | some n => PITCH_ORDER.indexOf n.pitch
    | none =>
      match (st.sequence.notes.drop (st.cursor + 1)).find? seedCandidate with
      | some n => PITCH_ORDER.indexOf n.pitch
      | none => 0

def pitch_up (st : EditorState) : EditorState :=
  match currentNote st with
  | none => st
  | some note =>
    if note.pitch = "REST" then
      let seed := restSeedPitchIndex st
      setNoteAt st { note with pitch := PITCH_ORDER.getD (min (PITCH_ORDER.length - 1) (seed + 1)) "C4" }
    else
      match PITCH_ORDER.indexOf? note.pitch with
      | none => st  -- source: `PITCH_ORDER.index` raises ValueError before any mutation
      | some idx =>
        if idx < PITCH_ORDER.length - 1 then
          setNoteAt st { note with pitch := PITCH_ORDER.getD (idx + 1) "C4" }
        else st

def pitch_down (st : EditorState) : EditorState :=
  match currentNote st with
  | none => st
  | some note =>
    if note.pitch = "REST" then
      let seed := restSeedPitchIndex st
      setNoteAt st { note with pitch := PITCH_ORDER.getD (seed - 1) "C4" }
    else
      match PITCH_ORDER.indexOf? note.pitch with
      | none => st  -- source: `PITCH_ORDER.index` raises ValueError before any mutation
      | some idx =>
        if 0 < idx then
          setNoteAt st { note with pitch := PITCH_ORDER.getD (idx - 1) "C4" }
        else st

def delete_note (st : EditorState) : EditorState :=
  if st.sequence.notes = [] then st
  else
    let notes2 := st.sequence.notes.eraseIdx st.cursor
    let cursor2 :=
      if notes2.length ≤ st.cursor ∧ notes2 ≠ [] then notes2.length - 1 else st.cursor
    { sequence := { st.sequence with notes := notes2 }, cursor := cursor2 }

def add_note (st : EditorState) : EditorState :=
  if st.sequence.notes = [] then
    let newNote : Note :=
      { pitch := "C4", duration := 1, beat := 0, note_type := "quarter", instrument := 0 }
    { sequence := { st.sequence with notes := [newNote] }, cursor := 0 }
  else
    match st.sequence.notes[st.cursor]? with
    | none => st  -- source: list indexing raises IndexError before any mutation
    | some cur =>
      let newNote : Note :=
        { pitch := "C4", duration := 1, beat := cur.beat + cur.duration,
          note_type := "quarter", instrument := 0 }
      { sequence := { st.sequence with notes := st.sequence.notes.insertIdx (st.cursor + 1) newNote },
        cursor := st.cursor + 1 }

def toggle_instrument (st : EditorState) : EditorState :=
  match currentNote st with
  | none => st
  | some note =>
    setNoteAt st { note with instrument := if note.instrument = 0 then 1 else 0 }

def split_note (st : EditorState) : EditorState :=
  match currentNote st with
  | none => st
  | some note =>
    if note.duration ≤ 1/4 then st
    else
      let halfDuration := note.duration / 2
      let newType :=
        match noteTypeForDuration halfDuration with
        | some t => t
        | none => note.note_type
      let updated : Note := { note with duration := halfDuration, note_type := newType }
      let sibling : Note :=
        { pitch := note.pitch, duration := halfDuration, beat := note.beat + halfDuration,
          note_type := newType, instrument := note.instrument }
      { st with sequence := { st.sequence with
          notes := (st.sequence.notes.set st.cursor updated).insertIdx (st.cursor + 1) sibling } }

def merge_note (st : EditorState) : EditorState :=
  if st.sequence.notes = [] ∨ st.sequence.notes.length - 1 ≤ st.cursor then st
  else
    match st.sequence.notes[st.cursor]?, st.sequence.notes[st.cursor + 1]? with
    | some cur, some nxt =>
      if cur.instrument ≠ nxt.instrument then st
      else if 1/1000000 < |cur.beat + cur.duration - nxt.beat| then st
      else
        let mergedDuration := cur.duration + nxt.duration
        let newType :=
          match noteTypeForDuration mergedDuration with
          | some t => t
          | none => cur.note_type
        { st with sequence := { st.sequence with
            notes := (st.sequence.notes.set st.cursor
              { cur with duration := mergedDuration, note_type := newType }).eraseIdx (st.cursor + 1) } }
    | _, _ => st

def make_rest (st : EditorState) : EditorState :=
  match currentNote st with
  | none => st
  | some note => setNoteAt st { note with pitch := "REST" }

/-- The command dispatch of the Composition App editor (`execute`): unknown
commands are silently ignored. -/
def execute (command : String) (st : EditorState) : EditorState :=
  if command = "move_left" then move_left st
  else if command = "move_right" then move_right st
  else if command = "pitch_up" then pitch_up st
  else if command = "pitch_down" then pitch_down st
  else if command = "delete_note" then delete_note st
  else if command = "add_note" then add_note st
  else if command = "toggle_instrument" then toggle_instrument st
  else if command = "split_note" then split_note st
  else if command = "merge_note" then merge_note st
  else if command = "make_rest" then make_rest st
  else st

end MusicApp

/-! ## Coordination server: state, routes, gesture map -/

/-- A WebSocket frame that the server may broadcast (`state.py` broadcast
payloads): either a `sequence_update` or a `command` frame with an optional
cursor. -/
inductive Frame where
  | sequenceUpdate (sequence : Sequence)
  | command (command : String) (cursor : Option Nat)
deriving DecidableEq, Repr

/-- A structured JSON response returned by a route handler. -/
structure ApiResult where
  status : String
  reason : Option String
  note_count : Option Nat
deriving DecidableEq, Repr

/-- The `AppState.replace_sequence` helper: install the new sequence and build
a fresh editor around it (whose `_cursor` starts at 0). -/
def replace_sequence (_st : EditorState) (newSeq : Sequence) : EditorState :=
  { sequence := newSeq, cursor := 0 }

/-- Payload of `POST /speech` (`SpeechPayload` in `routes/speech.py`). -/
structure SpeechPayload where
  text : String
  selection_start_index : Option Int
  selection_end_index : Option Int

/-- Python `str.strip` (whitespace at both ends), as applied to the speech
text; written over the character list so that it evaluates by `decide`. -/
def pyStrip (s : String) : String :=
  String.mk (((s.data.dropWhile fun c => c.isWhitespace).reverse.dropWhile
    (fun c => c.isWhitespace)).reverse)

/-- The `_validate_selection_range` helper of `routes/speech.py`. -/
def validateSelectionRange (length : Nat) (start fin : Int) : Bool × Option String :=
  if start < 0 ∨ fin < 0 then
    (false, some "selection indices must be non-negative")
  else if fin < start then
    (false, some "selection_start_index must be <= selection_end_index")
  else if length = 0 then
    (false, some "cannot apply selection-scoped edit to empty sequence")
  else if (length : Int) ≤ fin then
    (false, some ("selection_end_index " ++ toString fin ++ " out of bounds for "
      ++ toString length ++ " notes"))
  else (true, none)

/-- The loop body of `_strict_out_of_range_unchanged`: scan the zipped note
lists and return the first out-of-range index whose notes differ. -/
def strictViolation (selStart selEnd : Int) : Nat → List Note → List Note → Option Nat
  | _, [], _ => none
  | _, _, [] => none
  | i, o :: os, n :: ns =>
    if selStart ≤ (i : Int) ∧ (i : Int) ≤ selEnd then
      strictViolation selStart selEnd (i + 1) os ns
    else if o ≠ n then some i
    else strictViolation selStart selEnd (i + 1) os ns

/-- The `_strict_out_of_range_unchanged` check of `routes/speech.py`. -/
def strictOutOfRangeUnchanged (before after : Sequence) (selStart selEnd : Int) :
    Bool × Option String :=
  if before.notes.length ≠ after.notes.length then
    (false, some "strict selection mode requires unchanged total note count")
  else
    match strictViolation selStart selEnd 0 before.notes after.notes with
    | some i => (false, some ("out-of-range mutation detected at note index " ++ toString i))
    | none => (true, none)

/-- The `receive_speech` handler of `routes/speech.py`.  The LLM call plus
`Sequence.from_json` parse is modelled by `llmResult` (`none` models any
exception from `edit_sequence` or the parse).  Returns the post-state, the
JSON response, and the list of frames broadcast to subscribers. -/
def receiveSpeech (st : EditorState) (payload : SpeechPayload) (llmResult : Option Sequence) :
    EditorState × ApiResult × List Frame :=
  if pyStrip payload.text = "" then (st, ⟨"ignored", some "empty instruction", none⟩, [])
  else
    match payload.selection_start_index, payload.selection_end_index with
    | some _, none =>
      (st, ⟨"error", some "selection_start_index and selection_end_index must both be provided",
        none⟩, [])
    | none, some _ =>
      (st, ⟨"error", some "selection_start_index and selection_end_index must both be provided",
        none⟩, [])
    | some s, some e =>
      match validateSelectionRange st.sequence.notes.length s e with
      | (false, reason) => (st, ⟨"error", reason, none⟩, [])
      | (true, _) =>
        match llmResult with
        | none => (st, ⟨"error", some "failed to process instruction", none⟩, [])
        | some newSeq =>
          match strictOutOfRangeUnchanged st.sequence newSeq s e with
          | (false, reason) => (st, ⟨"error", reason, none⟩, [])
          | (true, _) =>
            (replace_sequence st newSeq, ⟨"ok", none, some newSeq.notes.length⟩,
              [Frame.sequenceUpdate newSeq])
    | none, none =>
      match llmResult with
      | none => (st, ⟨"error", some "failed to process instruction", none⟩, [])
      | some newSeq =>
        (replace_sequence st newSeq, ⟨"ok", none, some newSeq.notes.length⟩,
          [Frame.sequenceUpdate newSeq])

/-- The explicit gesture-to-command table of `services/gesture_map.py`. -/
def GESTURE_TO_COMMAND : List (String × String) :=
  [("PITCH_UP", "pitch_up"),
   ("PITCH_DOWN", "pitch_down"),
   ("TOGGLE_PLAYBACK", "toggle_playback"),
   ("SCROLL_FORWARD", "move_right"),
   ("SCROLL_BACKWARD", "move_left"),
   ("SWITCH_STAFF", "switch_edit_staff"),
   ("ADD_NOTE", "add_note"),
   ("DELETE_NOTE", "delete_note"),
   ("TOGGLE_INSTRUMENT", "switch_edit_staff"),
   ("SPLIT_NOTE", "split_note"),
   ("MERGE_NOTE", "merge_note"),
   ("MAKE_REST", "make_rest")]

/-- The known-command set of `services/gesture_map.py`. -/
def KNOWN_COMMANDS : List String :=
  ["move_left", "move_right", "pitch_up", "pitch_down", "delete_note", "add_note",
   "toggle_instrument", "split_note", "merge_note", "make_rest", "toggle_playback",
   "switch_edit_staff"]

/-- The `map_gesture` function of `services/gesture_map.py`. -/
def mapGesture (gesture : String) : Option String :=
  if gesture = "" then none
  else
    match GESTURE_TO_COMMAND.lookup gesture with
    | some mapped => some mapped
    | none =>
      if KNOWN_COMMANDS.contains gesture then some gesture
      else if KNOWN_COMMANDS.contains gesture.toLower then some gesture.toLower
      else none

/-- The `receive_gesture` handler of `routes/gestures.py`. -/
def receiveGesture (st : EditorState) (gesture : String) :
    EditorState × ApiResult × List Frame :=
  match mapGesture gesture with
  | none => (st, ⟨"ignored", some ("unknown gesture: " ++ gesture), none⟩, [])
  | some command =>
    if command = "toggle_playback" then
      (st, ⟨"ok", none, none⟩, [Frame.command "toggle_playback" none])
    else
      match ServerEditor.execute command st with
      | none => (st, ⟨"ignored", some ("unknown command: " ++ command), none⟩, [])
      | some st2 => (st2, ⟨"ok", none, none⟩, [Frame.command command (some st2.cursor)])

/-- The `put_sequence` handler of `routes/sequence.py`.  `parsed` models the
result of `Sequence.from_dict` (`none` models the exception branch). -/
def putSequence (st : EditorState) (parsed : Option Sequence) :
    EditorState × ApiResult × List Frame :=
  match parsed with
  | none => (st, ⟨"error", some "invalid sequence data", none⟩, [])
  | some newSeq =>
    (replace_sequence st newSeq, ⟨"ok", none, some newSeq.notes.length⟩,
      [Frame.sequenceUpdate newSeq])

/-! ## Gesture pipeline: finger state, pinch, peace sign, cooldowns -/

/-- Thresholds from `hand-gesture-app/src/config.py`. -/
def GESTURE_COOLDOWN_S : ℚ := 6/10

def PINCH_DISTANCE_THRESHOLD : ℚ := 45/1000

def PINCH_OPEN_THRESHOLD : ℚ := 7/100

def PEACE_SIGN_FRAME_WINDOW : Nat := 8

def PEACE_SIGN_MIN_HOLD_FRAMES : Nat := 4

/-- Boolean state for each finger (`finger_state.py`, `FingerState`). -/
structure FingerState where
  thumb : Bool
  index : Bool
  middle : Bool
  ring : Bool
  pinky : Bool
deriving DecidableEq, Repr

def FingerState.count_extended (fs : FingerState) : Nat :=
  (if fs.thumb then 1 else 0) + (if fs.index then 1 else 0) + (if fs.middle then 1 else 0)
    + (if fs.ring then 1 else 0) + (if fs.pinky then 1 else 0)

def FingerState.only_index (fs : FingerState) : Bool :=
  fs.index && !fs.middle && !fs.ring && !fs.pinky

def FingerState.open_palm (fs : FingerState) : Bool :=
  decide (4 ≤ fs.count_extended)

/-- Modelled from the spec: the `peace_sign` pose predicate is referenced by
`gesture_detector.py` but its definition is absent from `finger_state.py` in
the source tree; the spec defines it as exactly index and middle extended. -/
def FingerState.peace_sign (fs : FingerState) : Bool :=
  !fs.thumb && fs.index && fs.middle && !fs.ring && !fs.pinky

/-- The `MotionBuffer.recent` read helper: the n most recent snapshots,
oldest first (Python `items[-n:]`). -/
def recentFrames (n : Nat) (buf : List FingerState) : List FingerState :=
  buf.drop (buf.length - n)

/-- The `_detect_peace_sign` detector of `gesture_detector.py`, as a function
of the buffered per-frame finger states (oldest first), the current frame's
finger state, and the `_peace_was_inactive` latch.  Returns the optional
`(gesture, confidence)` result and the new latch value. -/
def detectPeaceSign (buf : List FingerState) (fs : FingerState) (wasInactive : Bool) :
    Option (String × ℚ) × Bool :=
  if fs.peace_sign = false then (none, true)
  else if wasInactive = false then (none, wasInactive)
  else
    let frames := recentFrames PEACE_SIGN_FRAME_WINDOW buf
    if frames.length < PEACE_SIGN_MIN_HOLD_FRAMES then (none, wasInactive)
    else
      let recent := frames.drop (frames.length - PEACE_SIGN_MIN_HOLD_FRAMES)
      let peaceCount := recent.countP (fun f => f.peace_sign)
      if peaceCount < PEACE_SIGN_MIN_HOLD_FRAMES then (none, wasInactive)
      else
        (some ("SWITCH_STAFF", min 1 ((peaceCount : ℚ) / (recent.length : ℚ))), false)

/-- The last thumb-to-index distance of a pinch window (`distances[-1]`). -/
def pinchCurrent : List ℚ → ℚ
  | [] => 0
  | d :: ds => ds.getLastD d

/-- The maximum thumb-to-index distance of a pinch window (`distances.max()`). -/
def pinchMax : List ℚ → ℚ
  | [] => 0
  | d :: ds => ds.foldl max d

/-- The `_detect_pinch` detector of `gesture_detector.py`, as a function of the
per-frame thumb-tip-to-index-tip distances over the pinch window (oldest
first) and the `_pinch_was_open` latch.  The empty list models
`landmark_positions` returning `None` (fewer buffered frames than the
window).  Returns the optional result and the new latch value. -/
def detectPinch (dists : List ℚ) (wasOpen : Bool) : Option (String × ℚ) × Bool :=
  match dists with
  | [] => (none, wasOpen)
  | d :: ds =>
    let current := ds.getLastD d
    let maxDist := ds.foldl max d
    let opened := wasOpen || decide (PINCH_OPEN_THRESHOLD ≤ maxDist)
    if current < PINCH_DISTANCE_THRESHOLD ∧ opened = true then
      (some ("TOGGLE_PLAYBACK",
        min 1 (min 1 ((PINCH_DISTANCE_THRESHOLD - current) / PINCH_DISTANCE_THRESHOLD + 1/2))),
        false)
    else (none, opened)

/-- Number of pinch firings over a run of windows, threading the latch. -/
def runPinch : Bool → List (List ℚ) → Nat
  | _, [] => 0
  | wasOpen, win :: wins =>
    match detectPinch win wasOpen with
    | (some _, w2) => runPinch w2 wins + 1
    | (none, w2) => runPinch w2 wins

/-- The `_fire` cooldown update of `gesture_detector.py`: record the firing
time of the gesture class. -/
def fireCooldown (cool : String → ℚ) (g : String) (t : ℚ) : String → ℚ :=
  fun s => if s = g then t else cool s

/-- One frame of the `detect` loop of `gesture_detector.py`: scan the matched
detector results in priority order; a match whose class is on cooldown is
skipped (`continue`), the first off-cooldown match fires. -/
def detectStep (cool : String → ℚ) (t : ℚ) : List String → Option String × (String → ℚ)
  | [] => (none, cool)
  | g :: gs =>
    if t - cool g < GESTURE_COOLDOWN_S then detectStep cool t gs
    else (some g, fireCooldown cool g t)

/-- The `detect` loop over a trace of frames; each frame carries its wall-clock
time and the detector matches of that frame in priority order.  Returns the
emitted `(time, gesture)` events. -/
def runDetect (cool : String → ℚ) : List (ℚ × List String) → List (ℚ × String)
  | [] => []
  | (t, ms) :: rest =>
    match detectStep cool t ms with
    | (some g, cool2) => (t, g) :: runDetect cool2 rest
    | (none, cool2) => runDetect cool2 rest

/-! ## Derived predicates used by the claims -/

/-- The cursor invariant of the spec: `cursor ∈ [0, len(notes)-1]`, or the
sequence is empty and the cursor is 0. -/
def cursorInvariant (st : EditorState) : Prop :=
  (st.sequence.notes.length = 0 ∧ st.cursor = 0) ∨ st.cursor < st.sequence.notes.length

instance : DecidablePred cursorInvariant := fun st => by
  unfold cursorInvariant; infer_instance

/-- Data-model well-formedness: every note is a rest or carries a pitch from
the closed pitch set. -/
def validPitches (st : EditorState) : Prop :=
  ∀ n ∈ st.sequence.notes, n.pitch = "REST" ∨ n.pitch ∈ PITCH_ORDER

instance : DecidablePred validPitches := fun st => by
  unfold validPitches; infer_instance

/-- Modelled from the spec (refinement-side definition, to be compared with
the source-side `MusicApp.restSeedPitchIndex`): the seed pitch for converting
a rest is the nearest prior non-rest pitch, else the nearest following
non-rest pitch, else C4. -/
def specSeedPitch (st : EditorState) : String :=
  match (st.sequence.notes.take st.cursor).reverse.find? (fun n => !(n.pitch == "REST")) with
  | some n => n.pitch
  | none =>
    match (st.sequence.notes.drop (st.cursor + 1)).find? (fun n => !(n.pitch == "REST")) with
    | some n => n.pitch
    | none => "C4"

/-- The pitch at an index of the closed pitch table (the default is never
reached at the clamped indices the editors produce). -/
def pitchAt (i : Nat) : String :=
  PITCH_ORDER.getD i "C4"

/-- The index in PITCH_ORDER of the spec-side seed pitch. -/
def specSeedIdx (st : EditorState) : Nat :=
  PITCH_ORDER.indexOf (specSeedPitch st)

/-- The pitch/duration/beat/instrument projection of a note (everything but
the visual `note_type` hint). -/
def coreFields (n : Note) : String × ℚ × ℚ × Int :=
  (n.pitch, n.duration, n.beat, n.instrument)

/-- A small concrete sequence used to exercise the theorems on explicit
inputs. -/
def demoSeq : Sequence :=
  { name := "Demo", bpm := 120, time_sig_num := 4, time_sig_den := 4, key := "C",
    notes := [{ pitch := "C4", duration := 1, beat := 0, note_type := "quarter", instrument := 0 },
              { pitch := "REST", duration := 1, beat := 1, note_type := "quarter", instrument := 0 },
              { pitch := "E4", duration := 2, beat := 2, note_type := "half", instrument := 0 }] }

/-- The demo sequence with only the middle note edited (rest replaced by D4),
as an LLM response respecting selection range [1..1]. -/
def demoSeqEdit : Sequence :=
  { demoSeq with notes :=
      [{ pitch := "C4", duration := 1, beat := 0, note_type := "quarter", instrument := 0 },
       { pitch := "D4", duration := 1, beat := 1, note_type := "quarter", instrument := 0 },
       { pitch := "E4", duration := 2, beat := 2, note_type := "half", instrument := 0 }] }

/-- A one-note sequence whose note_type (quarter) disagrees with its duration
(2 beats, a half note); the data model stores the two independently. -/
def typeMismatchSeq : Sequence :=
  { name := "Demo", bpm := 120, time_sig_num := 4, time_sig_den := 4, key := "C",
    notes := [{ pitch := "C4", duration := 2, beat := 0, note_type := "quarter", instrument := 0 }] }

/-- The state reached from `typeMismatchSeq` after split_note: two quarter-type
half-duration notes. -/
def splitMidSeq : Sequence :=
  { name := "Demo", bpm := 120, time_sig_num := 4, time_sig_den := 4, key := "C",
    notes := [{ pitch := "C4", duration := 1, beat := 0, note_type := "quarter", instrument := 0 },
              { pitch := "C4", duration := 1, beat := 1, note_type := "quarter", instrument := 0 }] }

/-- The state reached from `splitMidSeq` after merge_note: note_type has been
canonicalized to half. -/
def mergedSeq : Sequence :=
  { name := "Demo", bpm := 120, time_sig_num := 4, time_sig_den := 4, key := "C",
    notes := [{ pitch := "C4", duration := 2, beat := 0, note_type := "half", instrument := 0 }] }

/-- The server boot state: empty `Untitled` sequence, cursor 0. -/
def bootState : EditorState :=
  { sequence :=
      { name := "Untitled", bpm := 120, time_sig_num := 4, time_sig_den := 4,
        key := "C", notes := [] },
    cursor := 0 }

/-! ## List helper lemmas -/

theorem insertIdx_getElem? {α : Type} (x : α) :
    ∀ (n : Nat) (l : List α), n ≤ l.length → ∀ (j : Nat),
      (l.insertIdx n x)[j]? =
        if j < n then l[j]? else if j = n then some x else l[j - 1]? := by
  intro n
  induction n with
  | zero =>
    intro l _ j
    rw [List.insertIdx_zero]
    cases j with
    | zero => simp
    | succ k => simp
  | succ n ih =>
    intro l h j
    cases l with
    | nil => simp at h
    | cons a l =>
      rw [List.insertIdx_succ_cons]
      cases j with
      | zero => simp
      | succ k =>
        simp only [List.getElem?_cons_succ]
        rw [ih l (by simpa using h) k]
        by_cases h1 : k < n
        · simp [h1, Nat.succ_lt_succ h1]
        · have h3 : ¬ (k + 1 < n + 1) := by omega
          by_cases h2 : k = n
          · subst h2; simp
          · have h4 : ¬ (k + 1 = n + 1) := by omega
            simp only [h1, h2, h3, h4, if_false]
            have h5 : 1 ≤ k := by omega
            obtain ⟨m, rfl⟩ : ∃ m, k = m + 1 := ⟨k - 1, by omega⟩
            simp

theorem set_self_of_getElem? {α : Type} (l : List α) (n : Nat) (a : α)
    (h : l[n]? = some a) : l.set n a = l := by
  apply List.ext_get?
  intro j
  simp only [List.get?_eq_getElem?, List.getElem?_set]
  by_cases hj : n = j
  · subst hj
    have hlt : n < l.length := by
      by_contra hlen
      rw [List.getElem?_eq_none (by omega)] at h
      exact Option.noConfusion h
    simp [hlt, h.symm]
  · simp [hj]

theorem set_insertIdx_comm {α : Type} (l : List α) (x b : α) (k n : Nat)
    (hk : k < n) (hn : n ≤ l.length) :
    (l.insertIdx n x).set k b = (l.set k b).insertIdx n x := by
  apply List.ext_get?
  intro j
  simp only [List.get?_eq_getElem?]
  have hlen : (l.insertIdx n x).length = l.length + 1 := List.length_insertIdx n l hn
  rw [List.getElem?_set, insertIdx_getElem? x n (l.set k b) (by simpa using hn) j]
  by_cases hkj : k = j
  · subst hkj
    have h1 : k < (l.insertIdx n x).length := by omega
    have h2 : k < l.length := by omega
    simp [h1, h2, hk, List.getElem?_set]
  · rw [if_neg hkj, insertIdx_getElem? x n l hn j]
    by_cases hjn : j < n
    · simp [hjn, List.getElem?_set, hkj]
    · by_cases hjn2 : j = n
      · simp [hjn, hjn2]
      · have hne : ¬ k = j - 1 := by omega
        simp [hjn, hjn2, List.getElem?_set, hne]

/-! ## Outcomes of the speech route -/

theorem receiveSpeech_spec (st : EditorState) (p : SpeechPayload) (llm : Option Sequence)
    (st2 : EditorState) (r : ApiResult) (fr : List Frame)
    (h : receiveSpeech st p llm = (st2, r, fr)) :
    (r.status = "ok" ∧ ∃ newSeq, llm = some newSeq ∧ st2 = replace_sequence st newSeq ∧
        fr = [Frame.sequenceUpdate newSeq] ∧
        (∀ s e, p.selection_start_index = some s → p.selection_end_index = some e →
          (strictOutOfRangeUnchanged st.sequence newSeq s e).1 = true))
    ∨ (r.status ≠ "ok" ∧ st2 = st ∧ fr = []) := by
  obtain ⟨text, sel1, sel2⟩ := p
  unfold receiveSpeech at h
  dsimp only at h ⊢
  by_cases htrim : pyStrip text = ""
  · rw [if_pos htrim] at h
    injection h with h1 h23
    injection h23 with h2 h3
    subst h1; subst h2; subst h3
    exact Or.inr ⟨by decide, rfl, rfl⟩
  · rw [if_neg htrim] at h
    cases sel1 with
    | some s =>
      cases sel2 with
      | none =>
        dsimp only at h ⊢
        injection h with h1 h23
        injection h23 with h2 h3
        subst h1; subst h2; subst h3
        exact Or.inr ⟨by decide, rfl, rfl⟩
      | some e =>
        dsimp only at h ⊢
        rcases hval : validateSelectionRange st.sequence.notes.length s e with ⟨b, reason⟩
        rw [hval] at h
        cases b with
        | false =>
          injection h with h1 h23
          injection h23 with h2 h3
          subst h1; subst h2; subst h3
          exact Or.inr ⟨show "error" ≠ "ok" by decide, rfl, rfl⟩
        | true =>
          cases llm with
          | none =>
            injection h with h1 h23
            injection h23 with h2 h3
            subst h1; subst h2; subst h3
            exact Or.inr ⟨by decide, rfl, rfl⟩
          | some newSeq =>
            dsimp only at h
            rcases hstrict : strictOutOfRangeUnchanged st.sequence newSeq s e with ⟨b2, reason2⟩
            rw [hstrict] at h
            cases b2 with
            | false =>
              injection h with h1 h23
              injection h23 with h2 h3
              subst h1; subst h2; subst h3
              exact Or.inr ⟨show "error" ≠ "ok" by decide, rfl, rfl⟩
            | true =>
              injection h with h1 h23
              injection h23 with h2 h3
              subst h1; subst h2; subst h3
              refine Or.inl ⟨rfl, newSeq, rfl, rfl, rfl, ?_⟩
              intro s2 e2 hs2 he2
              cases hs2
              cases he2
              rw [hstrict]
    | none =>
      cases sel2 with
      | some e =>
        dsimp only at h ⊢
        injection h with h1 h23
        injection h23 with h2 h3
        subst h1; subst h2; subst h3
        exact Or.inr ⟨by decide, rfl, rfl⟩
      | none =>
        dsimp only at h ⊢
        cases llm with
        | none =>
          injection h with h1 h23
          injection h23 with h2 h3
          subst h1; subst h2; subst h3
          exact Or.inr ⟨by decide, rfl, rfl⟩
        | some newSeq =>
          injection h with h1 h23
          injection h23 with h2 h3
          subst h1; subst h2; subst h3
          refine Or.inl ⟨rfl, newSeq, rfl, rfl, rfl, ?_⟩
          intro s2 e2 hs2 he2
          exact Option.noConfusion hs2

/-- C2: for every POST /speech request the server rejects — empty text, a
missing selection bound, invalid selection indices, LLM/parsing failure, or a
strict-range violation — the canonical sequence and editor cursor are
unchanged and no WebSocket frame is broadcast; the handler returns a reason
without mutating state. -/
theorem speech_rejection_atomic (st : EditorState) (p : SpeechPayload) (llm : Option Sequence)
    (st2 : EditorState) (r : ApiResult) (fr : List Frame)
    (h : receiveSpeech st p llm = (st2, r, fr)) (hrej : r.status ≠ "ok") :
    st2 = st ∧ fr = [] := by
  rcases receiveSpeech_spec st p llm st2 r fr h with ⟨hok, _⟩ | ⟨_, h1, h2⟩
  · exact absurd hok hrej
  · exact ⟨h1, h2⟩

theorem speech_rejection_atomic_witness :
    receiveSpeech bootState ⟨"", none, none⟩ none =
      (bootState, ⟨"ignored", some "empty instruction", none⟩, []) ∧
    bootState = bootState ∧ ([] : List Frame) = [] :=
  have h : receiveSpeech bootState ⟨"", none, none⟩ none =
      (bootState, ⟨"ignored", some "empty instruction", none⟩, []) := by decide
  ⟨h, speech_rejection_atomic bootState ⟨"", none, none⟩ none bootState
    ⟨"ignored", some "empty instruction", none⟩ [] h (by decide)⟩

/-- C10: every whole-sequence replacement of the canonical state — via
PUT /sequence or an accepted POST /speech edit — constructs a fresh editor
around the new sequence, so the canonical cursor is reset to 0 regardless of
its value before the replacement. -/
theorem replacement_resets_cursor (st : EditorState) (newSeq : Sequence)
    (parsed : Option Sequence) (payload : SpeechPayload) (llm : Option Sequence) :
    (replace_sequence st newSeq).cursor = 0 ∧
    ((putSequence st parsed).2.1.status = "ok" → (putSequence st parsed).1.cursor = 0) ∧
    ((receiveSpeech st payload llm).2.1.status = "ok" →
      (receiveSpeech st payload llm).1.cursor = 0) := by
  refine ⟨rfl, ?_, ?_⟩
  · cases parsed with
    | none => intro hok; exact absurd hok (show "error" ≠ "ok" by decide)
    | some s2 => intro _; rfl
  · intro hok
    rcases receiveSpeech_spec st payload llm (receiveSpeech st payload llm).1
        (receiveSpeech st payload llm).2.1 (receiveSpeech st payload llm).2.2 rfl with
      ⟨_, ns, _, hst, _, _⟩ | ⟨hne, _, _⟩
    · rw [hst]; rfl
    · exact absurd hok hne

theorem replacement_resets_cursor_witness :
    (putSequence ⟨demoSeq, 2⟩ (some demoSeq)).2.1.status = "ok" ∧
    (putSequence ⟨demoSeq, 2⟩ (some demoSeq)).1.cursor = 0 :=
  ⟨rfl, (replacement_resets_cursor ⟨demoSeq, 2⟩ demoSeq (some demoSeq) ⟨"", none, none⟩
    none).2.1 rfl⟩

/-- C3 (code-bug evidence): the gesture table maps SPLIT_NOTE, MERGE_NOTE and
MAKE_REST to split_note, merge_note and make_rest, but the server editor's
execute does not implement these commands, so POST /gestures answers
status ignored with no execution and no broadcast — although the Composition
App editor (whose command strings the server editor claims to share) would
have executed split_note on the same state. -/
theorem gesture_structural_commands_ignored :
    mapGesture "SPLIT_NOTE" = some "split_note" ∧
    mapGesture "MERGE_NOTE" = some "merge_note" ∧
    mapGesture "MAKE_REST" = some "make_rest" ∧
    receiveGesture ⟨demoSeq, 2⟩ "SPLIT_NOTE" =
      (⟨demoSeq, 2⟩, ⟨"ignored", some "unknown command: split_note", none⟩, []) ∧
    receiveGesture ⟨demoSeq, 2⟩ "MERGE_NOTE" =
      (⟨demoSeq, 2⟩, ⟨"ignored", some "unknown command: merge_note", none⟩, []) ∧
    receiveGesture ⟨demoSeq, 2⟩ "MAKE_REST" =
      (⟨demoSeq, 2⟩, ⟨"ignored", some "unknown command: make_rest", none⟩, []) ∧
    (MusicApp.execute "split_note" ⟨demoSeq, 2⟩).sequence.notes.length =
      demoSeq.notes.length + 1 := by
  refine ⟨rfl, rfl, rfl, rfl, rfl, rfl, ?_⟩
  rw [show MusicApp.execute "split_note" (⟨demoSeq, 2⟩ : EditorState) =
    MusicApp.split_note ⟨demoSeq, 2⟩ from rfl]
  rw [MusicApp.split_note]
  rw [show currentNote (⟨demoSeq, 2⟩ : EditorState) =
    some ⟨"E4", 2, 2, "half", 0⟩ from rfl]
  dsimp only
  rw [if_neg (show ¬ ((2 : ℚ) ≤ 1/4) by norm_num)]
  simp [demoSeq, List.length_insertIdx, List.length_set]

theorem strictViolation_none (selStart selEnd : Int) :
    ∀ (os ns : List Note) (k : Nat), strictViolation selStart selEnd k os ns = none →
      os.length = ns.length →
      ∀ i : Nat, ((k + i : Int) < selStart ∨ selEnd < (k + i : Int)) →
        os[i]? = ns[i]? := by
  intro os
  induction os with
  | nil =>
    intro ns k h hlen i hout
    cases ns with
    | nil => rfl
    | cons n ns => simp at hlen
  | cons o os ih =>
    intro ns k h hlen i hout
    cases ns with
    | nil => simp at hlen
    | cons n ns =>
      unfold strictViolation at h
      by_cases hin : selStart ≤ (k : Int) ∧ (k : Int) ≤ selEnd
      · rw [if_pos hin] at h
        cases i with
        | zero =>
          exfalso
          rcases hout with h1 | h1 <;> omega
        | succ j =>
          simp only [List.getElem?_cons_succ]
          refine ih ns (k + 1) h (by simpa using hlen) j ?_
          rcases hout with h1 | h1
          · exact Or.inl (by push_cast at h1 ⊢; omega)
          · exact Or.inr (by push_cast at h1 ⊢; omega)
      · rw [if_neg hin] at h
        by_cases heq : o ≠ n
        · rw [if_pos heq] at h
          exact Option.noConfusion h
        · rw [if_neg heq] at h
          push_neg at heq
          cases i with
          | zero => simp [heq]
          | succ j =>
            simp only [List.getElem?_cons_succ]
            refine ih ns (k + 1) h (by simpa using hlen) j ?_
            rcases hout with h1 | h1
            · exact Or.inl (by push_cast at h1 ⊢; omega)
            · exact Or.inr (by push_cast at h1 ⊢; omega)

/-- C1: strict range enforcement — for every POST /speech request carrying a
selection range whose LLM response the server accepts (status ok), the
resulting canonical sequence has exactly as many notes as the pre-state and
every note outside [start..end] is structurally equal to the corresponding
pre-state note; a response violating either condition is rejected with the
computed reason and the canonical state is not replaced. -/
theorem speech_strict_range_enforcement (st : EditorState) (p : SpeechPayload)
    (llm : Option Sequence) (st2 : EditorState) (r : ApiResult) (fr : List Frame)
    (s e : Int)
    (h : receiveSpeech st p llm = (st2, r, fr))
    (hs : p.selection_start_index = some s)
    (he : p.selection_end_index = some e) :
    (r.status = "ok" →
      st2.sequence.notes.length = st.sequence.notes.length ∧
      ∀ i : Nat, ((i : Int) < s ∨ e < (i : Int)) →
        st2.sequence.notes[i]? = st.sequence.notes[i]?) ∧
    (∀ newSeq msg, llm = some newSeq →
      strictOutOfRangeUnchanged st.sequence newSeq s e = (false, some msg) →
      pyStrip p.text ≠ "" →
      (validateSelectionRange st.sequence.notes.length s e).1 = true →
      r = ⟨"error", some msg, none⟩ ∧ st2 = st ∧ fr = []) := by
  constructor
  · intro hok
    rcases receiveSpeech_spec st p llm st2 r fr h with
      ⟨_, ns, hllm, hst, hfr, hstrict⟩ | ⟨hne, _, _⟩
    · have hq := hstrict s e hs he
      unfold strictOutOfRangeUnchanged at hq
      by_cases hlen : st.sequence.notes.length ≠ ns.notes.length
      · rw [if_pos hlen] at hq
        exact absurd hq (by decide)
      · rw [if_neg hlen] at hq
        push_neg at hlen
        rcases hsv : strictViolation s e 0 st.sequence.notes ns.notes with _ | i
        · subst hst
          refine ⟨hlen.symm, ?_⟩
          intro i hout
          exact (strictViolation_none s e st.sequence.notes ns.notes 0 hsv hlen i
            (by simpa using hout)).symm
        · rw [hsv] at hq
          simp at hq
    · exact absurd hok hne
  · intro newSeq msg hllm hstrict htrim hval
    subst hllm
    obtain ⟨text, sel1, sel2⟩ := p
    unfold receiveSpeech at h
    dsimp only at h hs he htrim
    subst hs
    subst he
    rw [if_neg htrim] at h
    dsimp only at h
    rcases hvq : validateSelectionRange st.sequence.notes.length s e with ⟨b, reason⟩
    rw [hvq] at h
    rw [hvq] at hval
    cases b with
    | false => simp at hval
    | true =>
      dsimp only at h
      rw [hstrict] at h
      dsimp only at h
      injection h with h1 h23
      injection h23 with h2 h3
      subst h1; subst h2; subst h3
      exact ⟨rfl, rfl, rfl⟩

theorem speech_strict_range_enforcement_witness :
    receiveSpeech ⟨demoSeq, 1⟩ ⟨"edit the middle note", some 1, some 1⟩ (some demoSeqEdit) =
      (⟨demoSeqEdit, 0⟩, ⟨"ok", none, some 3⟩, [Frame.sequenceUpdate demoSeqEdit]) ∧
    demoSeqEdit.notes.length = demoSeq.notes.length ∧
    demoSeqEdit.notes[0]? = demoSeq.notes[0]? ∧
    demoSeqEdit.notes[2]? = demoSeq.notes[2]? := by
  have h : receiveSpeech ⟨demoSeq, 1⟩ ⟨"edit the middle note", some 1, some 1⟩
      (some demoSeqEdit) =
      (⟨demoSeqEdit, 0⟩, ⟨"ok", none, some 3⟩, [Frame.sequenceUpdate demoSeqEdit]) := by
    decide
  have hmain := (speech_strict_range_enforcement ⟨demoSeq, 1⟩
    ⟨"edit the middle note", some 1, some 1⟩ (some demoSeqEdit) ⟨demoSeqEdit, 0⟩
    ⟨"ok", none, some 3⟩ [Frame.sequenceUpdate demoSeqEdit] 1 1 h rfl rfl).1 rfl
  exact ⟨h, hmain.1, hmain.2 0 (Or.inl (by decide)), hmain.2 2 (Or.inr (by decide))⟩

/-! ## Cursor invariant preservation -/

theorem getElem?_some_lt {α : Type} {l : List α} {n : Nat} {a : α}
    (h : l[n]? = some a) : n < l.length := by
  by_contra hn
  rw [List.getElem?_eq_none (by omega)] at h
  exact Option.noConfusion h

theorem cursorInvariant_setCursor (st : EditorState) (v : Int) :
    cursorInvariant (setCursor st v) := by
  unfold setCursor cursorInvariant
  by_cases hn : st.sequence.notes = []
  · rw [if_pos hn]
    exact Or.inl ⟨by simp [hn], rfl⟩
  · rw [if_neg hn]
    right
    dsimp only
    have hlen : 1 ≤ st.sequence.notes.length := List.length_pos.mpr hn
    have h1 : max 0 (min v ((st.sequence.notes.length : Int) - 1)) ≤
        (st.sequence.notes.length : Int) - 1 := by
      apply max_le
      · omega
      · exact min_le_right v _
    have h0 : 0 ≤ max 0 (min v ((st.sequence.notes.length : Int) - 1)) := le_max_left 0 _
    omega

theorem cursorInvariant_setNoteAt (st : EditorState) (n : Note)
    (h : cursorInvariant st) : cursorInvariant (setNoteAt st n) := by
  unfold setNoteAt cursorInvariant at *
  simpa [List.length_set] using h

theorem cursorInvariant_replace (st : EditorState) (newSeq : Sequence) :
    cursorInvariant (replace_sequence st newSeq) := by
  unfold replace_sequence cursorInvariant
  cases hq : newSeq.notes with
  | nil => exact Or.inl ⟨by simp [hq], rfl⟩
  | cons a l => exact Or.inr (by simp [hq])

theorem cursorInvariant_sv_pitch_up (st : EditorState) (h : cursorInvariant st) :
    cursorInvariant (ServerEditor.pitch_up st) := by
  unfold ServerEditor.pitch_up
  repeat' split
  all_goals first
    | exact h
    | exact cursorInvariant_setNoteAt _ _ h

theorem cursorInvariant_sv_pitch_down (st : EditorState) (h : cursorInvariant st) :
    cursorInvariant (ServerEditor.pitch_down st) := by
  unfold ServerEditor.pitch_down
  repeat' split
  all_goals first
    | exact h
    | exact cursorInvariant_setNoteAt _ _ h

theorem cursorInvariant_sv_toggle (st : EditorState) (h : cursorInvariant st) :
    cursorInvariant (ServerEditor.toggle_instrument st) := by
  unfold ServerEditor.toggle_instrument
  repeat' split
  all_goals first
    | exact h
    | exact cursorInvariant_setNoteAt _ _ h

theorem cursorInvariant_sv_delete (st : EditorState) (h : cursorInvariant st) :
    cursorInvariant (ServerEditor.delete_note st) := by
  unfold ServerEditor.delete_note
  by_cases hn : st.sequence.notes = []
  · rw [if_pos hn]; exact h
  · rw [if_neg hn]
    have hcur : st.cursor < st.sequence.notes.length := by
      rcases h with ⟨h0, _⟩ | h1
      · exact absurd (List.length_eq_zero.mp h0) hn
      · exact h1
    have hlen : (st.sequence.notes.eraseIdx st.cursor).length =
        st.sequence.notes.length - 1 := by
      rw [List.length_eraseIdx]
      simp [hcur]
    unfold cursorInvariant
    dsimp only
    split
    · rename_i hcond
      have h2 : 1 ≤ (st.sequence.notes.eraseIdx st.cursor).length :=
        List.length_pos.mpr hcond.2
      exact Or.inr (by omega)
    · rename_i hcond
      push_neg at hcond
      by_cases hnil : st.sequence.notes.eraseIdx st.cursor = []
      · have hz : (st.sequence.notes.eraseIdx st.cursor).length = 0 := by simp [hnil]
        exact Or.inl ⟨hz, by omega⟩
      · have hc2 : ¬ ((st.sequence.notes.eraseIdx st.cursor).length ≤ st.cursor) :=
          fun hle => hnil (hcond hle)
        exact Or.inr (by omega)

theorem cursorInvariant_sv_add (st : EditorState) (h : cursorInvariant st) :
    cursorInvariant (ServerEditor.add_note st) := by
  unfold ServerEditor.add_note
  by_cases hn : st.sequence.notes = []
  · rw [if_pos hn]
    exact Or.inr (by simp)
  · rw [if_neg hn]
    rcases hg : st.sequence.notes[st.cursor]? with _ | cur
    · exact h
    · have hcur : st.cursor < st.sequence.notes.length := getElem?_some_lt hg
      right
      dsimp only
      rw [List.length_insertIdx _ _
        (by omega : st.cursor + 1 ≤ st.sequence.notes.length)]
      omega

theorem cursorInvariant_ma_pitch_up (st : EditorState) (h : cursorInvariant st) :
    cursorInvariant (MusicApp.pitch_up st) := by
  unfold MusicApp.pitch_up
  repeat' split
  all_goals first
    | exact h
    | exact cursorInvariant_setNoteAt _ _ h

theorem cursorInvariant_ma_pitch_down (st : EditorState) (h : cursorInvariant st) :
    cursorInvariant (MusicApp.pitch_down st) := by
  unfold MusicApp.pitch_down
  repeat' split
  all_goals first
    | exact h
    | exact cursorInvariant_setNoteAt _ _ h

theorem cursorInvariant_ma_toggle (st : EditorState) (h : cursorInvariant st) :
    cursorInvariant (MusicApp.toggle_instrument st) := by
  unfold MusicApp.toggle_instrument
  repeat' split
  all_goals first
    | exact h
    | exact cursorInvariant_setNoteAt _ _ h

theorem cursorInvariant_ma_make_rest (st : EditorState) (h : cursorInvariant st) :
    cursorInvariant (MusicApp.make_rest st) := by
  unfold MusicApp.make_rest
  repeat' split
  all_goals first
    | exact h
    | exact cursorInvariant_setNoteAt _ _ h

theorem cursorInvariant_ma_delete (st : EditorState) (h : cursorInvariant st) :
    cursorInvariant (MusicApp.delete_note st) := by
  unfold MusicApp.delete_note
  by_cases hn : st.sequence.notes = []
  · rw [if_pos hn]; exact h
  · rw [if_neg hn]
    have hcur : st.cursor < st.sequence.notes.length := by
      rcases h with ⟨h0, _⟩ | h1
      · exact absurd (List.length_eq_zero.mp h0) hn
      · exact h1
    have hlen : (st.sequence.notes.eraseIdx st.cursor).length =
        st.sequence.notes.length - 1 := by
      rw [List.length_eraseIdx]
      simp [hcur]
    unfold cursorInvariant
    dsimp only
    split
    · rename_i hcond
      have h2 : 1 ≤ (st.sequence.notes.eraseIdx st.cursor).length :=
        List.length_pos.mpr hcond.2
      exact Or.inr (by omega)
    · rename_i hcond
      push_neg at hcond
      by_cases hnil : st.sequence.notes.eraseIdx st.cursor = []
      · have hz : (st.sequence.notes.eraseIdx st.cursor).length = 0 := by simp [hnil]
        exact Or.inl ⟨hz, by omega⟩
      · have hc2 : ¬ ((st.sequence.notes.eraseIdx st.cursor).length ≤ st.cursor) :=
          fun hle => hnil (hcond hle)
        exact Or.inr (by omega)

theorem cursorInvariant_ma_add (st : EditorState) (h : cursorInvariant st) :
    cursorInvariant (MusicApp.add_note st) := by
  unfold MusicApp.add_note
  by_cases hn : st.sequence.notes = []
  · rw [if_pos hn]
    exact Or.inr (by simp)
  · rw [if_neg hn]
    rcases hg : st.sequence.notes[st.cursor]? with _ | cur
    · exact h
    · have hcur : st.cursor < st.sequence.notes.length := getElem?_some_lt hg
      right
      dsimp only
      rw [List.length_insertIdx _ _
        (by omega : st.cursor + 1 ≤ st.sequence.notes.length)]
      omega

theorem cursorInvariant_ma_split (st : EditorState) (h : cursorInvariant st) :
    cursorInvariant (MusicApp.split_note st) := by
  unfold MusicApp.split_note
  rcases hg : currentNote st with _ | note
  · exact h
  · have hcur : st.cursor < st.sequence.notes.length := getElem?_some_lt hg
    dsimp only
    split
    · exact h
    · right
      dsimp only
      rw [List.length_insertIdx]
      · rw [List.length_set]
        omega
      · rw [List.length_set]
        omega

theorem cursorInvariant_ma_merge (st : EditorState) (h : cursorInvariant st) :
    cursorInvariant (MusicApp.merge_note st) := by
  unfold MusicApp.merge_note
  split
  · exact h
  · rename_i hguard
    push_neg at hguard
    have hne : st.sequence.notes ≠ [] := hguard.1
    have hlt : st.cursor < st.sequence.notes.length - 1 := hguard.2
    have hpos : 1 ≤ st.sequence.notes.length := List.length_pos.mpr hne
    repeat' split
    all_goals try exact h
    right
    dsimp only
    rw [List.length_eraseIdx]
    rw [List.length_set]
    have : st.cursor + 1 < st.sequence.notes.length := by omega
    simp only [this, if_pos]
    omega

/-- C5: after every editor command (move_left, move_right, pitch_up,
pitch_down, delete_note, add_note, toggle_instrument, split_note, merge_note,
make_rest) and after every whole-sequence replacement, the cursor satisfies
cursor ∈ [0, len(notes)-1], or the sequence is empty and the cursor is 0. -/
theorem editor_cursor_invariant (st : EditorState) (command : String)
    (newSeq : Sequence) (h : cursorInvariant st) :
    cursorInvariant (MusicApp.execute command st) ∧
    (∀ st2, ServerEditor.execute command st = some st2 → cursorInvariant st2) ∧
    cursorInvariant (replace_sequence st newSeq) := by
  refine ⟨?_, ?_, cursorInvariant_replace st newSeq⟩
  · unfold MusicApp.execute
    repeat' split
    all_goals first
      | exact cursorInvariant_setCursor st _
      | exact cursorInvariant_ma_pitch_up st h
      | exact cursorInvariant_ma_pitch_down st h
      | exact cursorInvariant_ma_delete st h
      | exact cursorInvariant_ma_add st h
      | exact cursorInvariant_ma_toggle st h
      | exact cursorInvariant_ma_split st h
      | exact cursorInvariant_ma_merge st h
      | exact cursorInvariant_ma_make_rest st h
      | exact h
  · intro st2 hst2
    unfold ServerEditor.execute at hst2
    repeat' split at hst2
    all_goals first
      | exact Option.noConfusion hst2
      | (injection hst2 with h2
         subst h2
         first
           | exact cursorInvariant_setCursor st _
           | exact cursorInvariant_sv_pitch_up st h
           | exact cursorInvariant_sv_pitch_down st h
           | exact cursorInvariant_sv_delete st h
           | exact cursorInvariant_sv_add st h
           | exact cursorInvariant_sv_toggle st h)

theorem editor_cursor_invariant_witness :
    cursorInvariant (⟨demoSeq, 1⟩ : EditorState) ∧
    cursorInvariant (MusicApp.execute "delete_note" ⟨demoSeq, 1⟩) :=
  ⟨by decide, (editor_cursor_invariant ⟨demoSeq, 1⟩ "delete_note" demoSeq (by decide)).1⟩

/-! ## Cooldown gate -/

theorem detectStep_none (cool : String → ℚ) (t : ℚ) :
    ∀ ms cool2, detectStep cool t ms = (none, cool2) → cool2 = cool := by
  intro ms
  induction ms with
  | nil =>
    intro cool2 h
    injection h with h1 h2
    exact h2.symm
  | cons g gs ih =>
    intro cool2 h
    unfold detectStep at h
    split at h
    · exact ih cool2 h
    · injection h with h1 h2
      exact Option.noConfusion h1

theorem detectStep_fire (cool : String → ℚ) (t : ℚ) :
    ∀ ms g cool2, detectStep cool t ms = (some g, cool2) →
      GESTURE_COOLDOWN_S ≤ t - cool g ∧ cool2 = fireCooldown cool g t := by
  intro ms
  induction ms with
  | nil =>
    intro g cool2 h
    injection h with h1 h2
    exact Option.noConfusion h1
  | cons g0 gs ih =>
    intro g cool2 h
    unfold detectStep at h
    split at h
    · exact ih g cool2 h
    · rename_i hcd
      injection h with h1 h2
      obtain rfl := Option.some.inj h1
      exact ⟨le_of_not_lt hcd, h2.symm⟩

theorem runDetect_chain (g : String) :
    ∀ (trace : List (ℚ × List String)) (cool : String → ℚ),
      List.Chain' (fun a b => GESTURE_COOLDOWN_S ≤ b - a)
        (cool g :: ((runDetect cool trace).filter (fun ev => ev.2 == g)).map Prod.fst) := by
  intro trace
  induction trace with
  | nil => intro cool; simp [runDetect]
  | cons fr rest ih =>
    intro cool
    obtain ⟨t, ms⟩ := fr
    unfold runDetect
    rcases hstep : detectStep cool t ms with ⟨res, cool2⟩
    cases res with
    | none =>
      dsimp only
      obtain rfl := detectStep_none cool t ms cool2 hstep
      exact ih cool2
    | some gf =>
      dsimp only
      obtain ⟨hge, hcool2⟩ := detectStep_fire cool t ms gf cool2 hstep
      by_cases hgg : gf = g
      · subst hgg
        rw [List.filter_cons_of_pos (by simp)]
        simp only [List.map_cons]
        refine List.chain'_cons.mpr ⟨hge, ?_⟩
        have h2 : cool2 gf = t := by
          rw [hcool2]
          simp [fireCooldown]
        have h3 := ih cool2
        rw [h2] at h3
        exact h3
      · rw [List.filter_cons_of_neg (by simp [hgg])]
        have h2 : cool2 g = cool g := by
          rw [hcool2]
          simp [fireCooldown]
          intro hq
          exact absurd hq.symm hgg
        have h3 := ih cool2
        rw [h2] at h3
        exact h3

/-- C8: per-class cooldown — any two successive gesture events of the same
class are separated by at least GESTURE_COOLDOWN_S (0.6) seconds, and a
detector match inside the cooldown window of its own class produces no event
of that class. -/
theorem gesture_cooldown (cool : String → ℚ) (trace : List (ℚ × List String))
    (g : String) (t : ℚ) (ms : List String) :
    List.Chain' (fun a b => GESTURE_COOLDOWN_S ≤ b - a)
      (((runDetect cool trace).filter (fun ev => ev.2 == g)).map Prod.fst) ∧
    (t - cool g < GESTURE_COOLDOWN_S → (detectStep cool t ms).1 ≠ some g) := by
  constructor
  · exact (runDetect_chain g trace cool).tail
  · intro hcd hfire
    rcases hq : detectStep cool t ms with ⟨res, cool2⟩
    rw [hq] at hfire
    dsimp only at hfire
    subst hfire
    obtain ⟨hge, _⟩ := detectStep_fire cool t ms g cool2 hq
    linarith

theorem gesture_cooldown_witness :
    ((1 : ℚ)/2 - (fun _ => (0 : ℚ)) "PITCH_UP" < GESTURE_COOLDOWN_S) ∧
    (detectStep (fun _ => (0 : ℚ)) (1/2) ["PITCH_UP"]).1 ≠ some "PITCH_UP" :=
  have hc : (1 : ℚ)/2 - (fun _ => (0 : ℚ)) "PITCH_UP" < GESTURE_COOLDOWN_S := by
    norm_num [GESTURE_COOLDOWN_S]
  ⟨hc, (gesture_cooldown (fun _ => (0 : ℚ)) [] "PITCH_UP" (1/2) ["PITCH_UP"]).2 hc⟩

/-! ## Pinch detector -/

theorem detectPinch_fire_latch (dists : List ℚ) (w w2 : Bool) (gq : String × ℚ)
    (h : detectPinch dists w = (some gq, w2)) : w2 = false := by
  cases dists with
  | nil =>
    injection h with h1 h2
    exact Option.noConfusion h1
  | cons d ds =>
    unfold detectPinch at h
    dsimp only at h
    split at h
    · injection h with h1 h2
      exact h2.symm
    · injection h with h1 h2
      exact Option.noConfusion h1

theorem runPinch_closed_zero :
    ∀ (wins : List (List ℚ)), (∀ win ∈ wins, pinchMax win < PINCH_OPEN_THRESHOLD) →
      runPinch false wins = 0 := by
  intro wins
  induction wins with
  | nil => intro _; rfl
  | cons win wins ih =>
    intro hall
    have hmax : ¬ (PINCH_OPEN_THRESHOLD ≤ pinchMax win) :=
      not_le.mpr (hall win (by simp))
    have hstep : detectPinch win false = (none, false) := by
      cases win with
      | nil => rfl
      | cons d ds =>
        unfold detectPinch
        have hb : decide (PINCH_OPEN_THRESHOLD ≤ ds.foldl max d) = false :=
          decide_eq_false hmax
        dsimp only
        rw [hb]
        simp
    unfold runPinch
    rw [hstep]
    exact ih (fun win2 h2 => hall win2 (by simp [h2]))

theorem runPinch_le_one :
    ∀ (wins : List (List ℚ)) (w : Bool),
      (∀ win ∈ wins, pinchMax win < PINCH_OPEN_THRESHOLD) → runPinch w wins ≤ 1 := by
  intro wins
  induction wins with
  | nil => intro w _; simp [runPinch]
  | cons win wins ih =>
    intro w hall
    unfold runPinch
    rcases hstep : detectPinch win w with ⟨res, w2⟩
    cases res with
    | some gq =>
      dsimp only
      obtain rfl := detectPinch_fire_latch win w w2 gq hstep
      have hz := runPinch_closed_zero wins (fun win2 h2 => hall win2 (by simp [h2]))
      omega
    | none =>
      dsimp only
      exact ih w2 (fun win2 h2 => hall win2 (by simp [h2]))

/-- C7: the pinch detector is edge-triggered — it fires exactly when the
current thumb-to-index distance is under PINCH_DISTANCE_THRESHOLD while the
was_open latch is set (the latch being set whenever the window's maximum
distance reached PINCH_OPEN_THRESHOLD, and cleared on firing); over any run of
windows that never show an open hand, at most one TOGGLE_PLAYBACK is emitted,
and none when the latch starts unset. -/
theorem pinch_edge_triggered (dists : List ℚ) (w : Bool) (wins : List (List ℚ)) :
    ((detectPinch dists w).1 ≠ none ↔
      dists ≠ [] ∧ pinchCurrent dists < PINCH_DISTANCE_THRESHOLD ∧
        (w = true ∨ PINCH_OPEN_THRESHOLD ≤ pinchMax dists)) ∧
    (∀ gq, (detectPinch dists w).1 = some gq → gq.1 = "TOGGLE_PLAYBACK") ∧
    ((detectPinch dists w).1 ≠ none → (detectPinch dists w).2 = false) ∧
    ((∀ win ∈ wins, pinchMax win < PINCH_OPEN_THRESHOLD) →
      runPinch w wins ≤ 1 ∧ (w = false → runPinch w wins = 0)) := by
  refine ⟨?_, ?_, ?_, ?_⟩
  · cases dists with
    | nil => simp [detectPinch]
    | cons d ds =>
      unfold detectPinch pinchCurrent pinchMax
      dsimp only
      split
      · rename_i hcond
        simp only [ne_eq, reduceCtorEq, not_false_iff, true_iff]
        refine ⟨by simp, hcond.1, ?_⟩
        have h2 := hcond.2
        rcases Bool.or_eq_true_iff.mp h2 with h3 | h3
        · exact Or.inl h3
        · exact Or.inr (of_decide_eq_true h3)
      · rename_i hcond
        refine ⟨fun hne => absurd rfl hne, fun hb => absurd ?_ hcond⟩
        refine ⟨hb.2.1, ?_⟩
        rcases hb.2.2 with h3 | h3
        · simp [h3]
        · simp [decide_eq_true h3]
  · intro gq hq
    cases dists with
    | nil => exact absurd hq (by simp [detectPinch])
    | cons d ds =>
      unfold detectPinch at hq
      dsimp only at hq
      split at hq
      · obtain rfl := Option.some.inj hq
        rfl
      · exact Option.noConfusion hq
  · intro hfire
    rcases hq : detectPinch dists w with ⟨res, w2⟩
    rw [hq] at hfire
    cases res with
    | none => exact absurd rfl hfire
    | some gq => exact detectPinch_fire_latch dists w w2 gq hq
  · intro hall
    refine ⟨runPinch_le_one wins w hall, ?_⟩
    intro hw
    subst hw
    exact runPinch_closed_zero wins hall

theorem pinch_edge_triggered_witness :
    ((detectPinch [(8 : ℚ)/100, 8/100, 3/100] false).1 ≠ none) ∧
    (∀ win ∈ [[(1 : ℚ)/100]], pinchMax win < PINCH_OPEN_THRESHOLD) ∧
    runPinch false [[(1 : ℚ)/100]] = 0 := by
  have hp := pinch_edge_triggered [(8 : ℚ)/100, 8/100, 3/100] false [[(1 : ℚ)/100]]
  have hall : ∀ win ∈ [[(1 : ℚ)/100]], pinchMax win < PINCH_OPEN_THRESHOLD := by
    intro win hw
    simp only [List.mem_singleton] at hw
    subst hw
    show (1 : ℚ)/100 < PINCH_OPEN_THRESHOLD
    norm_num [PINCH_OPEN_THRESHOLD]
  have hmax : pinchMax [(8 : ℚ)/100, 8/100, 3/100] = 8/100 := by
    show List.foldl max ((8 : ℚ)/100) [8/100, 3/100] = 8/100
    simp only [List.foldl_cons, List.foldl_nil, max_self]
    exact max_eq_left (by norm_num)
  refine ⟨?_, hall, (hp.2.2.2 hall).2 rfl⟩
  apply hp.1.mpr
  refine ⟨by simp, ?_, Or.inr ?_⟩
  · show pinchCurrent [(8 : ℚ)/100, 8/100, 3/100] < PINCH_DISTANCE_THRESHOLD
    have : pinchCurrent [(8 : ℚ)/100, 8/100, 3/100] = 3/100 := rfl
    rw [this]
    norm_num [PINCH_DISTANCE_THRESHOLD]
  · rw [hmax]
    norm_num [PINCH_OPEN_THRESHOLD]

/-! ## Peace-sign detector -/

/-- C9: peace-sign hold — the detector returns SWITCH_STAFF exactly when the
peace-sign pose is present now, the was_inactive latch is set, and the pose
was present in the MIN_HOLD (4) most recent frames of the 8-frame window; the
firing carries confidence 1 and clears the latch, the detector stays silent
while the latch is unset, and the latch resets exactly when the pose leaves. -/
theorem peace_sign_hold (buf : List FingerState) (fs : FingerState) (w : Bool) :
    ((detectPeaceSign buf fs w).1 ≠ none ↔
      fs.peace_sign = true ∧ w = true ∧
      PEACE_SIGN_MIN_HOLD_FRAMES ≤ (recentFrames PEACE_SIGN_FRAME_WINDOW buf).length ∧
      ∀ f ∈ (recentFrames PEACE_SIGN_FRAME_WINDOW buf).drop
          ((recentFrames PEACE_SIGN_FRAME_WINDOW buf).length - PEACE_SIGN_MIN_HOLD_FRAMES),
        f.peace_sign = true) ∧
    ((detectPeaceSign buf fs w).1 ≠ none →
      detectPeaceSign buf fs w = (some ("SWITCH_STAFF", 1), false)) ∧
    (fs.peace_sign = false → detectPeaceSign buf fs w = (none, true)) ∧
    (fs.peace_sign = true → w = false → detectPeaceSign buf fs w = (none, false)) := by
  by_cases hp : fs.peace_sign = false
  · refine ⟨?_, ?_, fun _ => ?_, fun hpt _ => absurd hpt (by simp [hp])⟩
    · unfold detectPeaceSign
      rw [if_pos hp]
      simp [hp]
    · unfold detectPeaceSign
      rw [if_pos hp]
      intro hne
      exact absurd rfl hne
    · unfold detectPeaceSign
      rw [if_pos hp]
  · have hpt : fs.peace_sign = true := by
      cases hq : fs.peace_sign with
      | false => exact absurd hq hp
      | true => rfl
    by_cases hw : w = false
    · subst hw
      refine ⟨?_, ?_, fun hq => absurd hq hp, fun _ _ => ?_⟩
      · unfold detectPeaceSign
        rw [if_neg hp, if_pos rfl]
        simp
      · unfold detectPeaceSign
        rw [if_neg hp, if_pos rfl]
        intro hne
        exact absurd rfl hne
      · unfold detectPeaceSign
        rw [if_neg hp, if_pos rfl]
    · have hwt : w = true := by
        cases hq : w with
        | false => exact absurd hq hw
        | true => rfl
      subst hwt
      by_cases hlen : (recentFrames PEACE_SIGN_FRAME_WINDOW buf).length <
          PEACE_SIGN_MIN_HOLD_FRAMES
      · have hres : detectPeaceSign buf fs true = (none, true) := by
          unfold detectPeaceSign
          rw [if_neg hp, if_neg (by simp), if_pos hlen]
        refine ⟨?_, ?_, fun hq => absurd hq hp, fun _ hq => absurd hq (by simp)⟩
        · rw [hres]
          simp only [ne_eq, not_true_eq_false, false_iff]
          intro hb
          omega
        · rw [hres]
          intro hne
          exact absurd rfl hne
      · push_neg at hlen
        have hr4len : ((recentFrames PEACE_SIGN_FRAME_WINDOW buf).drop
            ((recentFrames PEACE_SIGN_FRAME_WINDOW buf).length -
              PEACE_SIGN_MIN_HOLD_FRAMES)).length = PEACE_SIGN_MIN_HOLD_FRAMES := by
          rw [List.length_drop]
          omega
        by_cases hcnt : ((recentFrames PEACE_SIGN_FRAME_WINDOW buf).drop
            ((recentFrames PEACE_SIGN_FRAME_WINDOW buf).length -
              PEACE_SIGN_MIN_HOLD_FRAMES)).countP (fun f => f.peace_sign) <
            PEACE_SIGN_MIN_HOLD_FRAMES
        · have hres : detectPeaceSign buf fs true = (none, true) := by
            unfold detectPeaceSign
            rw [if_neg hp, if_neg (by simp), if_neg (by omega), if_pos hcnt]
          refine ⟨?_, ?_, fun hq => absurd hq hp, fun _ hq => absurd hq (by simp)⟩
          · rw [hres]
            simp only [ne_eq, not_true_eq_false, false_iff]
            intro hb
            have hc := List.countP_eq_length.mpr hb.2.2.2
            rw [hr4len] at hc
            have hc2 : ((recentFrames PEACE_SIGN_FRAME_WINDOW buf).drop
                ((recentFrames PEACE_SIGN_FRAME_WINDOW buf).length -
                  PEACE_SIGN_MIN_HOLD_FRAMES)).countP (fun f => f.peace_sign) =
                PEACE_SIGN_MIN_HOLD_FRAMES := hc
            omega
          · rw [hres]
            intro hne
            exact absurd rfl hne
        · push_neg at hcnt
          have hcle := @List.countP_le_length FingerState (fun f => f.peace_sign)
            ((recentFrames PEACE_SIGN_FRAME_WINDOW buf).drop
              ((recentFrames PEACE_SIGN_FRAME_WINDOW buf).length -
                PEACE_SIGN_MIN_HOLD_FRAMES))
          rw [hr4len] at hcle
          have hceq : ((recentFrames PEACE_SIGN_FRAME_WINDOW buf).drop
              ((recentFrames PEACE_SIGN_FRAME_WINDOW buf).length -
                PEACE_SIGN_MIN_HOLD_FRAMES)).countP (fun f => f.peace_sign) =
              PEACE_SIGN_MIN_HOLD_FRAMES := by omega
          have hall4 : ∀ f ∈ (recentFrames PEACE_SIGN_FRAME_WINDOW buf).drop
              ((recentFrames PEACE_SIGN_FRAME_WINDOW buf).length -
                PEACE_SIGN_MIN_HOLD_FRAMES), f.peace_sign = true := by
            apply List.countP_eq_length.mp
            rw [hceq, hr4len]
          have hres : detectPeaceSign buf fs true =
              (some ("SWITCH_STAFF", 1), false) := by
            unfold detectPeaceSign
            rw [if_neg hp, if_neg (by simp), if_neg (by omega), if_neg (by omega)]
            rw [hceq, hr4len]
            norm_num [PEACE_SIGN_MIN_HOLD_FRAMES]
          refine ⟨?_, fun _ => hres, fun hq => absurd hq hp, fun _ hq => absurd hq (by simp)⟩
          rw [hres]
          exact ⟨fun _ => ⟨hpt, rfl, hlen, hall4⟩, fun _ => by simp⟩

theorem peace_sign_hold_witness :
    (detectPeaceSign (List.replicate 8 ⟨false, true, true, false, false⟩)
      ⟨false, true, true, false, false⟩ true).1 ≠ none ∧
    detectPeaceSign (List.replicate 8 ⟨false, true, true, false, false⟩)
      ⟨false, true, true, false, false⟩ true = (some ("SWITCH_STAFF", 1), false) := by
  have hp := peace_sign_hold (List.replicate 8 (⟨false, true, true, false, false⟩ : FingerState))
    ⟨false, true, true, false, false⟩ true
  have hne := hp.1.mpr (by refine ⟨rfl, rfl, ?_, ?_⟩ <;> decide)
  exact ⟨hne, hp.2.1 hne⟩

/-! ## Rest-seeded pitch shifting -/

theorem find?_congr_mem {α : Type} (p q : α → Bool) :
    ∀ (l : List α), (∀ x ∈ l, p x = q x) → l.find? p = l.find? q := by
  intro l
  induction l with
  | nil => intro _; rfl
  | cons a l ih =>
    intro h
    have ha := h a (by simp)
    cases hqa : q a with
    | true =>
      rw [List.find?_cons_of_pos _ (ha.trans hqa), List.find?_cons_of_pos _ hqa]
    | false =>
      rw [List.find?_cons_of_neg _ (by simp [ha, hqa]),
        List.find?_cons_of_neg _ (by simp [hqa])]
      exact ih (fun x hx => h x (by simp [hx]))

theorem find?_seedCandidate_eq (l : List Note)
    (hv : ∀ n ∈ l, n.pitch = "REST" ∨ n.pitch ∈ PITCH_ORDER) :
    l.find? MusicApp.seedCandidate = l.find? (fun n => !(n.pitch == "REST")) := by
  apply find?_congr_mem
  intro n hn
  rcases hv n hn with hr | hmem
  · have hb : (n.pitch == "REST") = true := beq_iff_eq.mpr hr
    simp [MusicApp.seedCandidate, hb]
  · by_cases hr : n.pitch = "REST"
    · have hb : (n.pitch == "REST") = true := beq_iff_eq.mpr hr
      simp [MusicApp.seedCandidate, hb]
    · have hb : (n.pitch == "REST") = false := beq_eq_false_iff_ne.mpr hr
      have hc : PITCH_ORDER.contains n.pitch = true := List.elem_eq_true_of_mem hmem
      simp [MusicApp.seedCandidate, hb, hc, hmem]

theorem restSeed_eq_spec (st : EditorState) (hv : validPitches st)
    (hne : st.sequence.notes ≠ []) :
    MusicApp.restSeedPitchIndex st = PITCH_ORDER.indexOf (specSeedPitch st) := by
  unfold MusicApp.restSeedPitchIndex specSeedPitch
  rw [if_neg hne]
  have hv1 : ∀ n ∈ (st.sequence.notes.take st.cursor).reverse,
      n.pitch = "REST" ∨ n.pitch ∈ PITCH_ORDER := by
    intro n hn
    rw [List.mem_reverse] at hn
    exact hv n (List.take_subset _ _ hn)
  have hv2 : ∀ n ∈ st.sequence.notes.drop (st.cursor + 1),
      n.pitch = "REST" ∨ n.pitch ∈ PITCH_ORDER := by
    intro n hn
    exact hv n (List.drop_subset _ _ hn)
  rw [find?_seedCandidate_eq _ hv1, find?_seedCandidate_eq _ hv2]
  cases hq1 : (st.sequence.notes.take st.cursor).reverse.find?
      (fun n => !(n.pitch == "REST")) with
  | some n1 => rfl
  | none =>
    cases hq2 : (st.sequence.notes.drop (st.cursor + 1)).find?
        (fun n => !(n.pitch == "REST")) with
    | some n2 => rfl
    | none => rfl
/-- C4: pitch_up / pitch_down on a rest convert it to a real pitch seeded from
the nearest prior non-rest pitch, else the nearest following non-rest pitch,
else C4, shifted one step in PITCH_ORDER in the commanded direction and
clamped at the extremes; on a non-rest note they shift the pitch one step in
PITCH_ORDER, clamped at the extremes (no wrap). -/
theorem pitch_shift_rest_seeding (st : EditorState) (note : Note)
    (hv : validPitches st)
    (hcur : currentNote st = some note) :
    (note.pitch = "REST" →
      MusicApp.pitch_up st = setNoteAt st { note with pitch := pitchAt (min (PITCH_ORDER.length - 1) (specSeedIdx st + 1)) } ∧
      MusicApp.pitch_down st = setNoteAt st { note with pitch := pitchAt (specSeedIdx st - 1) }) ∧
    (∀ idx, note.pitch ≠ "REST" → PITCH_ORDER.indexOf? note.pitch = some idx →
      (idx < PITCH_ORDER.length - 1 →
        MusicApp.pitch_up st = setNoteAt st { note with pitch := pitchAt (idx + 1) }) ∧
      (idx = PITCH_ORDER.length - 1 → MusicApp.pitch_up st = st) ∧
      (0 < idx →
        MusicApp.pitch_down st = setNoteAt st { note with pitch := pitchAt (idx - 1) }) ∧
      (idx = 0 → MusicApp.pitch_down st = st)) := by
  have hne : st.sequence.notes ≠ [] := by
    intro hq
    rw [currentNote, hq] at hcur
    simp at hcur
  constructor
  · intro hrest
    have hseed := restSeed_eq_spec st hv hne
    constructor
    · unfold MusicApp.pitch_up
      rw [hcur]
      dsimp only
      rw [if_pos hrest, hseed]
      rfl
    · unfold MusicApp.pitch_down
      rw [hcur]
      dsimp only
      rw [if_pos hrest, hseed]
      rfl
  · intro idx hnr hidx
    refine ⟨?_, ?_, ?_, ?_⟩
    · intro hlt
      unfold MusicApp.pitch_up
      rw [hcur]
      dsimp only
      rw [if_neg hnr, hidx]
      dsimp only
      rw [if_pos hlt]
      rfl
    · intro hge
      unfold MusicApp.pitch_up
      rw [hcur]
      dsimp only
      rw [if_neg hnr, hidx]
      dsimp only
      rw [if_neg (by omega)]
    · intro hpos
      unfold MusicApp.pitch_down
      rw [hcur]
      dsimp only
      rw [if_neg hnr, hidx]
      dsimp only
      rw [if_pos hpos]
      rfl
    · intro hz
      unfold MusicApp.pitch_down
      rw [hcur]
      dsimp only
      rw [if_neg hnr, hidx]
      dsimp only
      rw [if_neg (by omega)]

theorem pitch_shift_rest_seeding_witness :
    validPitches (⟨demoSeq, 1⟩ : EditorState) ∧
    currentNote ⟨demoSeq, 1⟩ = some ⟨"REST", 1, 1, "quarter", 0⟩ ∧
    MusicApp.pitch_up ⟨demoSeq, 1⟩ =
      setNoteAt ⟨demoSeq, 1⟩ ⟨"C#4", 1, 1, "quarter", 0⟩ := by
  have hv : validPitches (⟨demoSeq, 1⟩ : EditorState) := by decide
  have h := ((pitch_shift_rest_seeding ⟨demoSeq, 1⟩ ⟨"REST", 1, 1, "quarter", 0⟩
    hv rfl).1 rfl).1
  exact ⟨hv, rfl, h.trans (by decide)⟩

/-! ## Split / merge round trip -/

theorem split_merge_compute (st : EditorState) (note : Note)
    (hcur : currentNote st = some note)
    (hdur : 1/4 < note.duration) :
    ∃ nty, MusicApp.merge_note (MusicApp.split_note st) =
      setNoteAt st { note with duration := note.duration / 2 + note.duration / 2, note_type := nty } ∧
      (noteTypeForDuration note.duration = some note.note_type → nty = note.note_type) := by
  have hlt : st.cursor < st.sequence.notes.length := getElem?_some_lt hcur
  refine ⟨(match noteTypeForDuration (note.duration / 2 + note.duration / 2) with
           | some t => t
           | none => match noteTypeForDuration (note.duration / 2) with
             | some t => t
             | none => note.note_type), ?_, ?_⟩
  · unfold MusicApp.split_note
    rw [hcur]
    dsimp only
    rw [if_neg (not_le.mpr hdur)]
    unfold MusicApp.merge_note
    dsimp only
    generalize hnt : (match noteTypeForDuration (note.duration / 2) with
      | some t => t
      | none => note.note_type) = nt1
    have hlen1 : ((st.sequence.notes.set st.cursor
        { note with duration := note.duration / 2, note_type := nt1 }).insertIdx
          (st.cursor + 1)
          { pitch := note.pitch, duration := note.duration / 2,
            beat := note.beat + note.duration / 2, note_type := nt1,
            instrument := note.instrument }).length = st.sequence.notes.length + 1 := by
      rw [List.length_insertIdx]
      · rw [List.length_set]
      · rw [List.length_set]
        omega
    rw [if_neg (by
      push_neg
      constructor
      · intro hq
        have := congrArg List.length hq
        rw [hlen1] at this
        simp at this
      · rw [hlen1]
        omega)]
    have hget1 : ((st.sequence.notes.set st.cursor
        { note with duration := note.duration / 2, note_type := nt1 }).insertIdx
          (st.cursor + 1)
          { pitch := note.pitch, duration := note.duration / 2,
            beat := note.beat + note.duration / 2, note_type := nt1,
            instrument := note.instrument })[st.cursor]? =
        some { note with duration := note.duration / 2, note_type := nt1 } := by
      rw [insertIdx_getElem? _ (st.cursor + 1) _ (by rw [List.length_set]; omega) st.cursor]
      simp [List.getElem?_set, hlt]
    have hget2 : ((st.sequence.notes.set st.cursor
        { note with duration := note.duration / 2, note_type := nt1 }).insertIdx
          (st.cursor + 1)
          { pitch := note.pitch, duration := note.duration / 2,
            beat := note.beat + note.duration / 2, note_type := nt1,
            instrument := note.instrument })[st.cursor + 1]? =
        some { pitch := note.pitch, duration := note.duration / 2,
               beat := note.beat + note.duration / 2, note_type := nt1,
               instrument := note.instrument } := by
      rw [insertIdx_getElem? _ (st.cursor + 1) _ (by rw [List.length_set]; omega)
        (st.cursor + 1)]
      simp
    rw [hget1, hget2]
    split
    · rename_i cur nxt hequ heqv
      obtain rfl := Option.some.inj hequ
      obtain rfl := Option.some.inj heqv
      rw [if_neg (by simp)]
      rw [if_neg (by
        dsimp only
        rw [sub_self, abs_zero]
        norm_num)]
      dsimp only
      rw [set_insertIdx_comm _ _ _ _ _ (by omega) (by rw [List.length_set]; omega),
        List.set_set, List.eraseIdx_insertIdx]
      rfl
    · rename_i harm
      exact (harm _ _ rfl rfl).elim
  · intro hcanon
    rw [add_halves, hcanon]

/-- C6 counterexample: at the one-note state whose note_type (quarter)
disagrees with its duration (2 beats, canonically a half note), split_note
then merge_note canonicalizes note_type to half, so the original sequence is
not restored even though the durations involved (2 and 1) are canonical
values, contradicting the claim as stated. -/
theorem split_merge_identity_counterexample :
    (1/4 : ℚ) < 2 ∧
    noteTypeForDuration 2 = some "half" ∧
    noteTypeForDuration 1 = some "quarter" ∧
    MusicApp.execute "merge_note" (MusicApp.execute "split_note" ⟨typeMismatchSeq, 0⟩) =
      ⟨mergedSeq, 0⟩ ∧
    MusicApp.execute "merge_note" (MusicApp.execute "split_note" ⟨typeMismatchSeq, 0⟩) ≠
      ⟨typeMismatchSeq, 0⟩ := by
  have ht2 : noteTypeForDuration 2 = some "half" := by
    unfold noteTypeForDuration
    rw [if_neg (by norm_num), if_pos (by norm_num)]
  have ht1 : noteTypeForDuration 1 = some "quarter" := by
    unfold noteTypeForDuration
    rw [if_neg (by norm_num), if_neg (by norm_num), if_pos (by norm_num)]
  have hsplit : MusicApp.split_note ⟨typeMismatchSeq, 0⟩ = ⟨splitMidSeq, 0⟩ := by
    unfold MusicApp.split_note
    rw [show currentNote ⟨typeMismatchSeq, 0⟩ = some ⟨"C4", 2, 0, "quarter", 0⟩ from rfl]
    dsimp only
    rw [if_neg (by norm_num : ¬ ((2 : ℚ) ≤ 1/4))]
    rw [show noteTypeForDuration ((2 : ℚ)/2) = some "quarter" from by
      unfold noteTypeForDuration
      rw [if_neg (by norm_num), if_neg (by norm_num), if_pos (by norm_num)]]
    dsimp only
    simp only [typeMismatchSeq, splitMidSeq, List.set_cons_zero, List.insertIdx_succ_cons,
      List.insertIdx_zero, EditorState.mk.injEq, Sequence.mk.injEq, Note.mk.injEq,
      List.cons.injEq, and_true, true_and]
    norm_num
  have hmerge : MusicApp.merge_note (⟨splitMidSeq, 0⟩ : EditorState) = ⟨mergedSeq, 0⟩ := by
    unfold MusicApp.merge_note
    rw [if_neg (by simp [splitMidSeq])]
    rw [show (⟨splitMidSeq, 0⟩ : EditorState).sequence.notes[(⟨splitMidSeq, 0⟩ :
          EditorState).cursor]? = some ⟨"C4", 1, 0, "quarter", 0⟩ from rfl,
        show (⟨splitMidSeq, 0⟩ : EditorState).sequence.notes[(⟨splitMidSeq, 0⟩ :
          EditorState).cursor + 1]? = some ⟨"C4", 1, 1, "quarter", 0⟩ from rfl]
    split
    · rename_i cur nxt hequ heqv
      obtain rfl := Option.some.inj hequ
      obtain rfl := Option.some.inj heqv
      rw [if_neg (by simp)]
      rw [if_neg (by
        dsimp only
        rw [show ((0 : ℚ) + 1 - 1) = 0 by norm_num, abs_zero]
        norm_num)]
      dsimp only
      rw [show noteTypeForDuration ((1 : ℚ) + 1) = some "half" from by
        unfold noteTypeForDuration
        rw [if_neg (by norm_num), if_pos (by norm_num)]]
      dsimp only
      simp only [splitMidSeq, mergedSeq, List.set_cons_zero, List.eraseIdx_cons_succ,
        List.eraseIdx_cons_zero, EditorState.mk.injEq, Sequence.mk.injEq, Note.mk.injEq,
        List.cons.injEq, and_true, true_and]
      norm_num
    · rename_i harm
      exact (harm _ _ rfl rfl).elim
  refine ⟨by norm_num, ht2, ht1, ?_, ?_⟩
  · rw [show MusicApp.execute "split_note" (⟨typeMismatchSeq, 0⟩ : EditorState) =
      MusicApp.split_note ⟨typeMismatchSeq, 0⟩ from rfl, hsplit,
      show MusicApp.execute "merge_note" = MusicApp.merge_note from rfl, hmerge]
  · rw [show MusicApp.execute "split_note" (⟨typeMismatchSeq, 0⟩ : EditorState) =
      MusicApp.split_note ⟨typeMismatchSeq, 0⟩ from rfl, hsplit,
      show MusicApp.execute "merge_note" = MusicApp.merge_note from rfl, hmerge]
    intro hq
    have hnote : ("half" : String) = "quarter" :=
      congrArg (fun s => (s.sequence.notes.getD 0 ⟨"X", 0, 0, "X", 0⟩).note_type) hq
    exact absurd hnote (by decide)


/-- C6 (amended): for every note at the cursor with duration > 0.25,
split_note then merge_note at the same cursor restores the note count, the
cursor, and the pitch, duration, beat and instrument of every note; the whole
sequence — note_type included — is restored provided the pre-split note_type
is the canonical type name for the pre-split duration.  (When the pre-split
note_type disagrees with a canonical duration, the round trip instead
canonicalizes it, as the counterexample shows.) -/
theorem split_merge_roundtrip (st : EditorState) (note : Note)
    (hcur : currentNote st = some note)
    (hdur : 1/4 < note.duration) :
    ((MusicApp.execute "merge_note" (MusicApp.execute "split_note" st)).cursor = st.cursor ∧
     (MusicApp.execute "merge_note" (MusicApp.execute "split_note" st)).sequence.notes.map
       coreFields = st.sequence.notes.map coreFields) ∧
    (noteTypeForDuration note.duration = some note.note_type →
      MusicApp.execute "merge_note" (MusicApp.execute "split_note" st) = st) := by
  obtain ⟨nty, heq, himp⟩ := split_merge_compute st note hcur hdur
  have hc2 : st.sequence.notes[st.cursor]? = some note := hcur
  have hex : MusicApp.execute "merge_note" (MusicApp.execute "split_note" st) =
      MusicApp.merge_note (MusicApp.split_note st) := rfl
  rw [hex, heq]
  refine ⟨⟨rfl, ?_⟩, ?_⟩
  · unfold setNoteAt
    dsimp only
    rw [List.map_set]
    apply set_self_of_getElem?
    rw [List.getElem?_map, hc2]
    dsimp only [Option.map, coreFields]
    rw [add_halves]
  · intro hcanon
    rw [himp hcanon, add_halves]
    unfold setNoteAt
    rw [set_self_of_getElem? st.sequence.notes st.cursor _ hc2]

theorem split_merge_roundtrip_witness :
    currentNote ⟨demoSeq, 2⟩ = some ⟨"E4", 2, 2, "half", 0⟩ ∧
    (1/4 : ℚ) < 2 ∧
    MusicApp.execute "merge_note" (MusicApp.execute "split_note" ⟨demoSeq, 2⟩) =
      ⟨demoSeq, 2⟩ :=
  have hd : (1/4 : ℚ) < 2 := by norm_num
  have hcn : noteTypeForDuration (2 : ℚ) = some "half" := by
    unfold noteTypeForDuration
    rw [if_neg (by norm_num), if_pos (by norm_num)]
  ⟨rfl, hd, (split_merge_roundtrip ⟨demoSeq, 2⟩ ⟨"E4", 2, 2, "half", 0⟩ rfl hd).2 hcn⟩
